import Mathlib

/-!
Shallow embedding of the restaurant-and-attendance coordination service of
`app/utils/restaurants.server.ts`, together with the Prisma schema of the
migration file (tables `Restaurant`, `DinnerGroup`, `Attendee` with unique
indexes `DinnerGroup_restaurantId_key` and `Attendee_userId_key`).

The database is modelled as explicit state: lists of rows.  Prisma's
generated row ids (cuids) are modelled by a fresh-id counter `nextId`; the
unique indexes become well-formedness invariants proved to be preserved by
the operations.  `CURRENT_TIMESTAMP` at row creation is passed explicitly
as a `now : Nat` argument.  Each `await`ed store operation of the source is
a separate state transition, which lets us talk about the intermediate
states an external observer can see between the awaits of
`joinDinnerGroup`.
-/

namespace Dinner

/-- A row of the `DinnerGroup` table: id, restaurantId (unique), optional
free-text notes, creation timestamp. -/
structure DinnerGroup where
  id : Nat
  restaurantId : String
  notes : Option String
  createdAt : Nat
deriving Repr, DecidableEq

/-- A row of the `Attendee` table: id, userId (unique), the dinner group it
references, creation timestamp. -/
structure Attendee where
  id : Nat
  userId : String
  dinnerGroupId : Nat
  createdAt : Nat
deriving Repr, DecidableEq

/-- The membership-store state: the `DinnerGroup` and `Attendee` tables plus
the fresh-id counter standing in for Prisma's id generation. -/
structure DB where
  groups : List DinnerGroup
  attendees : List Attendee
  nextId : Nat
deriving Repr, DecidableEq

/-- The empty database. -/
def dbEmpty : DB := ⟨[], [], 0⟩

/-- `prisma.attendee.findUnique({ where: { userId } })`. -/
def findAttendee (u : String) (db : DB) : Option Attendee :=
  db.attendees.find? (fun a => a.userId == u)

/-- `prisma.attendee.delete({ where: { userId } })` (state effect). -/
def deleteAttendee (u : String) (db : DB) : DB :=
  { db with attendees := db.attendees.filter (fun a => !(a.userId == u)) }

/-- `prisma.attendee.count({ where: { dinnerGroupId } })`. -/
def countInGroup (gid : Nat) (db : DB) : Nat :=
  db.attendees.countP (fun a => a.dinnerGroupId == gid)

/-- `prisma.dinnerGroup.delete({ where: { id } })` (state effect). -/
def deleteGroup (gid : Nat) (db : DB) : DB :=
  { db with groups := db.groups.filter (fun g => !(g.id == gid)) }

/-- The state effect of `leaveDinnerGroup` (after its invariant check): look
up the caller's attendee row; if none, do nothing; otherwise delete it,
count the remaining attendees of its group, and delete the group when the
count is zero. -/
def leaveEffect (u : String) (db : DB) : DB :=
  match findAttendee u db with
  | none => db
  | some att =>
    if countInGroup att.dinnerGroupId (deleteAttendee u db) = 0 then
      deleteGroup att.dinnerGroupId (deleteAttendee u db)
    else deleteAttendee u db

/-- `leaveDinnerGroup(userId)` of `restaurants.server.ts`: throws (here:
`Except.error`) when `userId` is empty, is a no-op returning `null` (here:
`none`) when the user has no attendee row, and otherwise returns the group
that was left together with the new state. -/
def leaveDinnerGroup (u : String) (db : DB) :
    Except String (Option DinnerGroup × DB) :=
  if u = "" then Except.error "userId is required"
  else
    Except.ok
      ((findAttendee u db).bind
        (fun att => db.groups.find? (fun g => g.id == att.dinnerGroupId)),
       leaveEffect u db)

/-- `prisma.dinnerGroup.upsert({ where: { restaurantId }, update: {},
create: { restaurantId } })`: find the group of the venue, or create a
fresh one (fresh id, no notes, created now). -/
def upsertGroup (r : String) (now : Nat) (db : DB) : DinnerGroup × DB :=
  match db.groups.find? (fun g => g.restaurantId == r) with
  | some g => (g, db)
  | none =>
    let g : DinnerGroup := ⟨db.nextId, r, none, now⟩
    (g, { db with groups := db.groups ++ [g], nextId := db.nextId + 1 })

/-- `prisma.attendee.create({ data: { userId, dinnerGroupId } })`. -/
def createAttendee (u : String) (gid : Nat) (now : Nat) (db : DB) : DB :=
  { db with
      attendees := db.attendees ++ [⟨db.nextId, u, gid, now⟩],
      nextId := db.nextId + 1 }

/-- `joinDinnerGroup(userId, restaurantId)` of `restaurants.server.ts`:
invariant checks on both ids, then the full leave effect for the caller,
then find-or-create the venue's group, then create the attendee row.
Returns the resolved group. -/
def joinDinnerGroup (u r : String) (now : Nat) (db : DB) :
    Except String (DinnerGroup × DB) :=
  if u = "" then Except.error "userId is required"
  else if r = "" then Except.error "restaurantId is required"
  else
    let db1 := leaveEffect u db
    let gdb := upsertGroup r now db1
    Except.ok (gdb.1, createAttendee u gdb.1.id now gdb.2)

/-- The state reached by a `leaveDinnerGroup` call (a thrown invariant
leaves the store untouched). -/
def stepLeave (u : String) (db : DB) : DB :=
  match leaveDinnerGroup u db with
  | Except.ok x => x.2
  | Except.error _ => db

/-- The state reached by a `joinDinnerGroup` call (a thrown invariant
leaves the store untouched). -/
def stepJoin (u r : String) (now : Nat) (db : DB) : DB :=
  match joinDinnerGroup u r now db with
  | Except.ok x => x.2
  | Except.error _ => db

/-- The live read used by `getAllRestaurantDetails` to compute
`userAttendingRestaurantId` (spec: `getActiveVenueFor`): the caller's
attendee row joined with its dinner group's `restaurantId`. -/
def getActiveVenueFor (u : String) (db : DB) : Option String :=
  (findAttendee u db).bind fun a =>
    (db.groups.find? (fun g => g.id == a.dinnerGroupId)).map
      (fun g => g.restaurantId)

/-- The observation points of the embedded leave: initial state, after
`attendee.delete`, and (when the count hit zero) after
`dinnerGroup.delete`. -/
def leaveTrace (u : String) (db : DB) : List DB :=
  match findAttendee u db with
  | none => [db]
  | some att =>
    if countInGroup att.dinnerGroupId (deleteAttendee u db) = 0 then
      [db, deleteAttendee u db,
       deleteGroup att.dinnerGroupId (deleteAttendee u db)]
    else [db, deleteAttendee u db]

/-- The observation points of one `joinDinnerGroup` call: the store state
after each awaited mutation of the source (the embedded leave's states;
after `dinnerGroup.upsert`; after `attendee.create`).  Between any two
consecutive awaits another request may read the store. -/
def joinTrace (u r : String) (now : Nat) (db : DB) : List DB :=
  if u = "" ∨ r = "" then [db]
  else
    leaveTrace u db ++
      [(upsertGroup r now (leaveEffect u db)).2,
       createAttendee u (upsertGroup r now (leaveEffect u db)).1.id now
         (upsertGroup r now (leaveEffect u db)).2]

/-- A completed membership operation. -/
inductive Op where
  | join (u r : String) (now : Nat)
  | leave (u : String)
deriving Repr, DecidableEq

/-- Apply one completed operation to the store. -/
def applyOp (db : DB) : Op → DB
  | Op.join u r now => stepJoin u r now db
  | Op.leave u => stepLeave u db

/-- The store state after a finite sequence of completed operations,
starting from the empty database. -/
def runOps (ops : List Op) : DB :=
  ops.foldl applyOp dbEmpty

/-- Well-formedness of the membership store: the two unique indexes of the
schema (`Attendee_userId_key`, `DinnerGroup_restaurantId_key`), primary-key
uniqueness of group ids, referential integrity of
`Attendee.dinnerGroupId`, the no-empty-group invariant, and freshness of
the id counter. -/
structure WF (db : DB) : Prop where
  usersU : db.attendees.Pairwise (fun a b => a.userId ≠ b.userId)
  venuesU : db.groups.Pairwise (fun g h => g.restaurantId ≠ h.restaurantId)
  gidsU : db.groups.Pairwise (fun g h => g.id ≠ h.id)
  fk : ∀ a ∈ db.attendees, ∃ g ∈ db.groups, g.id = a.dinnerGroupId
  inhab : ∀ g ∈ db.groups, ∃ a ∈ db.attendees, a.dinnerGroupId = g.id
  gbound : ∀ g ∈ db.groups, g.id < db.nextId

/-! ### The refreshable venue cache -/

/-- `RESTAURANTS_TTL`: TTL for restaurant data (4 hours, in ms). -/
def RESTAURANTS_TTL : Nat := 1000 * 60 * 60 * 4

/-- The cache key `` `${CACHE_KEYS.ALL_RESTAURANTS}:${lat}:${lng}:${radius}` ``.
JS numbers are modelled as integers here; only equality of keys for
identical triples matters to the cache claims. -/
def cacheKey (lat lng radius : Int) : String :=
  "all-restaurants:" ++ toString lat ++ ":" ++ toString lng ++ ":"
    ++ toString radius

/-- One cache entry: key, storage time, cached value. -/
structure CacheEntry (α : Type) where
  key : String
  storedAt : Nat
  value : α
deriving Repr, DecidableEq

/-- Cache state plus an instrumentation counter of external-adapter
invocations. -/
structure CacheSys (α : Type) where
  entries : List (CacheEntry α)
  adapterCalls : Nat
deriving Repr, DecidableEq

/-- Modelled from the spec: `cachified` with `lruCache` come from
`app/utils/cache.server`, which is not among the sources here.  Spec §4.1:
"If a value exists for that key and its age is under a fixed freshness
window, returns it without touching the adapter or the store.  Otherwise
calls the adapter, … then caches and returns the freshly fetched list."
`fresh` stands for `getFreshValue` (the adapter-and-upsert pipeline
`fetchAndUpsertRestaurants`); `adapterCalls` counts its invocations. -/
def cachifiedGet {α : Type} (key : String) (ttl : Nat) (now : Nat)
    (fresh : Unit → α) (s : CacheSys α) : α × CacheSys α :=
  match s.entries.find? (fun e => e.key == key) with
  | some e =>
    if now - e.storedAt < ttl then (e.value, s)
    else
      (fresh (),
       ⟨⟨key, now, fresh ()⟩ :: s.entries.filter (fun e => !(e.key == key)),
        s.adapterCalls + 1⟩)
  | none =>
    (fresh (),
     ⟨⟨key, now, fresh ()⟩ :: s.entries.filter (fun e => !(e.key == key)),
      s.adapterCalls + 1⟩)

/-- The venue-fetch step of `getAllRestaurantDetails` (spec: `getVenues`):
`cachified` keyed by the (lat, lng, radius) triple with TTL
`RESTAURANTS_TTL`, whose fresh value invokes the external adapter. -/
def getVenues {α : Type} (adapter : Int → Int → Int → α)
    (lat lng radius : Int) (now : Nat) (s : CacheSys α) : α × CacheSys α :=
  cachifiedGet (cacheKey lat lng radius) RESTAURANTS_TTL now
    (fun _ => adapter lat lng radius) s

/-! ### Distance computation -/

/-- `parseFloat(distance.toFixed(1))`: rounding to one decimal place.
JS number arithmetic is modelled over the reals. -/
noncomputable def round1 (x : ℝ) : ℝ := (round (10 * x) : ℤ) / 10

/-- `Math.atan2(y, x)`: the two-argument arctangent (JS convention,
`atan2(0,0) = 0`). -/
noncomputable def atan2 (y x : ℝ) : ℝ :=
  if 0 < x then Real.arctan (y / x)
  else if x < 0 ∧ 0 ≤ y then Real.arctan (y / x) + Real.pi
  else if x < 0 ∧ y < 0 then Real.arctan (y / x) - Real.pi
  else if x = 0 ∧ 0 < y then Real.pi / 2
  else if x = 0 ∧ y < 0 then -(Real.pi / 2)
  else 0

/-- `calculateDistance` of `restaurants.server.ts`: the haversine formula
with earth radius 3958.8 miles, rounded to one decimal place. -/
noncomputable def calculateDistance (lat1 lng1 lat2 lng2 : ℝ) : ℝ :=
  round1 (3958.8 *
    (2 * atan2
      (Real.sqrt
        (Real.sin ((lat2 - lat1) * Real.pi / 180 / 2) *
            Real.sin ((lat2 - lat1) * Real.pi / 180 / 2) +
          Real.cos (lat1 * Real.pi / 180) * Real.cos (lat2 * Real.pi / 180) *
            (Real.sin ((lng2 - lng1) * Real.pi / 180 / 2) *
              Real.sin ((lng2 - lng1) * Real.pi / 180 / 2))))
      (Real.sqrt (1 -
        (Real.sin ((lat2 - lat1) * Real.pi / 180 / 2) *
            Real.sin ((lat2 - lat1) * Real.pi / 180 / 2) +
          Real.cos (lat1 * Real.pi / 180) * Real.cos (lat2 * Real.pi / 180) *
            (Real.sin ((lng2 - lng1) * Real.pi / 180 / 2) *
              Real.sin ((lng2 - lng1) * Real.pi / 180 / 2)))))))

/-! ### Basic lemmas about the membership operations -/

theorem attendees_deleteGroup (gid : Nat) (db : DB) :
    (deleteGroup gid db).attendees = db.attendees := rfl

theorem findAttendee_congr {u : String} {d d' : DB}
    (h : d.attendees = d'.attendees) : findAttendee u d = findAttendee u d' := by
  unfold findAttendee
  rw [h]

theorem find?_userId_filter (u : String) (l : List Attendee) :
    (l.filter (fun a => !(a.userId == u))).find? (fun a => a.userId == u)
      = none := by
  simp only [List.find?_eq_none, List.mem_filter, Bool.not_eq_true']
  intro a ha
  simp [ha.2]

theorem findAttendee_deleteAttendee (u : String) (db : DB) :
    findAttendee u (deleteAttendee u db) = none :=
  find?_userId_filter u db.attendees

theorem leaveEffect_attendees (u : String) (db : DB) :
    (leaveEffect u db).attendees = db.attendees ∨
    (leaveEffect u db).attendees = (deleteAttendee u db).attendees := by
  unfold leaveEffect
  split
  · exact Or.inl rfl
  · right
    split <;> rfl

theorem findAttendee_leaveEffect (u : String) (db : DB) :
    findAttendee u (leaveEffect u db) = none := by
  unfold leaveEffect
  split
  · next h => exact h
  · split
    · exact find?_userId_filter u db.attendees
    · exact find?_userId_filter u db.attendees

theorem leaveEffect_of_none {u : String} {db : DB}
    (h : findAttendee u db = none) : leaveEffect u db = db := by
  unfold leaveEffect
  rw [h]

theorem leaveEffect_idem (u : String) (db : DB) :
    leaveEffect u (leaveEffect u db) = leaveEffect u db :=
  leaveEffect_of_none (findAttendee_leaveEffect u db)

theorem stepLeave_eq (u : String) (db : DB) :
    stepLeave u db = if u = "" then db else leaveEffect u db := by
  unfold stepLeave leaveDinnerGroup
  by_cases h : u = "" <;> simp [h]

/-! ### Claim theorems: error handling and idempotence -/

/-- C6: `leave` is idempotent: calling it twice in a row yields the same
end state as calling it once (for every starting state), and when the
caller has no `Attendee` row it is a no-op returning an empty result
(`none`) rather than an error. -/
theorem c6_leave_idempotent (u : String) (db : DB) :
    stepLeave u (stepLeave u db) = stepLeave u db ∧
    (u ≠ "" → findAttendee u db = none →
      leaveDinnerGroup u db = Except.ok (none, db)) := by
  constructor
  · simp only [stepLeave_eq]
    by_cases h : u = "" <;> simp [h, leaveEffect_idem]
  · intro hu hnone
    unfold leaveDinnerGroup
    rw [if_neg hu, hnone, leaveEffect_of_none hnone]
    rfl

/-- Witness for C6 at a concrete input. -/
theorem c6_leave_idempotent_witness :
    stepLeave "p" (stepLeave "p" dbEmpty) = stepLeave "p" dbEmpty ∧
    leaveDinnerGroup "p" dbEmpty = Except.ok (none, dbEmpty) := by
  have h := c6_leave_idempotent "p" dbEmpty
  exact ⟨h.1, h.2 (by decide) rfl⟩

/-- C8: `join` fails with `InvalidArgument` exactly when `userId` or
`restaurantId` is empty, `leave` fails exactly when `userId` is empty, and
such a failure is surfaced immediately: the store is left untouched. -/
theorem c8_invalid_argument (u r : String) (now : Nat) (db : DB) :
    ((∃ e, joinDinnerGroup u r now db = Except.error e) ↔ (u = "" ∨ r = "")) ∧
    ((∃ e, leaveDinnerGroup u db = Except.error e) ↔ u = "") ∧
    ((u = "" ∨ r = "") → stepJoin u r now db = db) ∧
    (u = "" → stepLeave u db = db) := by
  by_cases hu : u = "" <;> by_cases hr : r = "" <;>
    simp [joinDinnerGroup, leaveDinnerGroup, stepJoin, stepLeave, hu, hr]

/-- Witness for C8 at a concrete input. -/
theorem c8_invalid_argument_witness :
    stepJoin "" "v" 0 dbEmpty = dbEmpty ∧ stepLeave "" dbEmpty = dbEmpty :=
  ⟨(c8_invalid_argument "" "v" 0 dbEmpty).2.2.1 (Or.inl rfl),
   (c8_invalid_argument "" "v" 0 dbEmpty).2.2.2 rfl⟩

/-- C2 counterexample: switching venues is NOT atomic for observers of
`getActiveVenueFor`.  Concretely, person `p` is the sole attendee of
venue `v1`'s group; during `joinDinnerGroup p v2` there is an observation
point (between two awaited store operations) at which `p` appears
Unattached and `v1`'s group is already deleted while the new membership
does not yet exist — even though before the call `p` attends `v1` and
after it completes `p` attends `v2`. -/
theorem c2_switch_not_atomic_counterexample :
    getActiveVenueFor "p" (⟨[⟨0, "v1", none, 0⟩], [⟨1, "p", 0, 0⟩], 2⟩ : DB)
      = some "v1" ∧
    ((joinTrace "p" "v2" 5 ⟨[⟨0, "v1", none, 0⟩], [⟨1, "p", 0, 0⟩], 2⟩).any
      (fun s => (getActiveVenueFor "p" s).isNone &&
        s.groups.all (fun g => !(g.restaurantId == "v1"))) = true) ∧
    (joinTrace "p" "v2" 5 ⟨[⟨0, "v1", none, 0⟩], [⟨1, "p", 0, 0⟩], 2⟩).getLast?
      = some (stepJoin "p" "v2" 5 ⟨[⟨0, "v1", none, 0⟩], [⟨1, "p", 0, 0⟩], 2⟩) ∧
    getActiveVenueFor "p"
      (stepJoin "p" "v2" 5 ⟨[⟨0, "v1", none, 0⟩], [⟨1, "p", 0, 0⟩], 2⟩)
      = some "v2" := by
  decide

/-! ### Uniqueness helpers for lists with a pairwise-distinct key -/

theorem countP_le_one_of_pairwise_ne {α β : Type} [BEq β] [LawfulBEq β]
    (key : α → β) (k : β) {l : List α}
    (h : l.Pairwise (fun a b => key a ≠ key b)) :
    l.countP (fun a => key a == k) ≤ 1 := by
  induction l with
  | nil => simp
  | cons a t ih =>
    rcases List.pairwise_cons.mp h with ⟨ha, ht⟩
    rw [List.countP_cons]
    by_cases hk : (key a == k) = true
    · have hz : t.countP (fun b => key b == k) = 0 := by
        rw [List.countP_eq_zero]
        intro b hb
        simp only [beq_iff_eq] at hk ⊢
        intro hbk
        exact ha b hb (hk.trans hbk.symm)
      simp [hk, hz]
    · simp only [hk, if_false]
      simpa using ih ht

theorem eq_of_pairwise_key {α β : Type} {key : α → β} {l : List α}
    (h : l.Pairwise (fun a b => key a ≠ key b)) {a b : α}
    (ha : a ∈ l) (hb : b ∈ l) (hk : key a = key b) : a = b := by
  induction l with
  | nil => cases ha
  | cons c t ih =>
    rcases List.pairwise_cons.mp h with ⟨hc, ht⟩
    rcases List.mem_cons.mp ha with rfl | ha'
    · rcases List.mem_cons.mp hb with rfl | hb'
      · rfl
      · exact absurd hk (hc b hb')
    · rcases List.mem_cons.mp hb with rfl | hb'
      · exact absurd hk.symm (hc a ha')
      · exact ih ht ha' hb'

theorem find?_eq_some_of_mem_unique {α β : Type} [BEq β] [LawfulBEq β]
    {key : α → β} {l : List α}
    (h : l.Pairwise (fun a b => key a ≠ key b)) {g : α} (hg : g ∈ l) :
    l.find? (fun x => key x == key g) = some g := by
  induction l with
  | nil => cases hg
  | cons c t ih =>
    rcases List.pairwise_cons.mp h with ⟨hc, ht⟩
    rcases List.mem_cons.mp hg with rfl | hg'
    · exact List.find?_cons_of_pos _ (by simp)
    · rw [List.find?_cons_of_neg _ (by simp [hc g hg'])]
      exact ih ht hg'

/-! ### Facts about `findAttendee` and `leaveEffect` -/

theorem findAttendee_mem {u : String} {db : DB} {att : Attendee}
    (h : findAttendee u db = some att) :
    att ∈ db.attendees ∧ att.userId = u := by
  unfold findAttendee at h
  exact ⟨List.mem_of_find?_eq_some h, by simpa using List.find?_some h⟩

theorem attendee_unique {db : DB} (w : WF db) {u : String} {a att : Attendee}
    (ha : a ∈ db.attendees) (hau : a.userId = u)
    (hfa : findAttendee u db = some att) : a = att := by
  rcases findAttendee_mem hfa with ⟨hmem, huid⟩
  exact eq_of_pairwise_key w.usersU ha hmem (hau.trans huid.symm)

theorem nextId_leaveEffect (u : String) (db : DB) :
    (leaveEffect u db).nextId = db.nextId := by
  unfold leaveEffect
  split
  · rfl
  · split <;> rfl

theorem leaveEffect_wf {db : DB} (w : WF db) (u : String) :
    WF (leaveEffect u db) := by
  unfold leaveEffect
  split
  · exact w
  · rename_i att hfa
    have hmem := (findAttendee_mem hfa).1
    have huid := (findAttendee_mem hfa).2
    have husers : (deleteAttendee u db).attendees.Pairwise
        (fun a b => a.userId ≠ b.userId) :=
      w.usersU.sublist (List.filter_sublist _)
    have hfk0 : ∀ a ∈ (deleteAttendee u db).attendees,
        ∃ g ∈ db.groups, g.id = a.dinnerGroupId := by
      intro a ha
      exact w.fk a (List.mem_filter.mp ha).1
    split
    · rename_i hcnt
      -- last attendee left: the group is deleted as well
      refine ⟨husers, w.venuesU.sublist (List.filter_sublist _),
        w.gidsU.sublist (List.filter_sublist _), ?_, ?_, ?_⟩
      · intro a ha
        rcases hfk0 a ha with ⟨g, hg, hgid⟩
        refine ⟨g, List.mem_filter.mpr ⟨hg, ?_⟩, hgid⟩
        simp only [Bool.not_eq_true', beq_eq_false_iff_ne, ne_eq]
        intro hgeq
        have : (deleteAttendee u db).attendees.countP
            (fun x => x.dinnerGroupId == att.dinnerGroupId) = 0 := hcnt
        rw [List.countP_eq_zero] at this
        exact this a ha (by simp [← hgid, hgeq])
      · intro g hg
        rcases List.mem_filter.mp hg with ⟨hgm, hgne⟩
        rcases w.inhab g hgm with ⟨a, ha, haid⟩
        by_cases hau : a.userId = u
        · exfalso
          have : a = att := attendee_unique w ha hau hfa
          subst this
          simp [haid] at hgne
        · exact ⟨a, List.mem_filter.mpr ⟨ha, by simp [hau]⟩, haid⟩
      · intro g hg
        exact w.gbound g (List.mem_filter.mp hg).1
    · rename_i hcnt
      refine ⟨husers, w.venuesU, w.gidsU, ?_, ?_, w.gbound⟩
      · intro a ha
        exact hfk0 a ha
      · intro g hg
        rcases w.inhab g hg with ⟨a, ha, haid⟩
        by_cases hau : a.userId = u
        · have haatt : a = att := attendee_unique w ha hau hfa
          have hpos : 0 < (deleteAttendee u db).attendees.countP
              (fun x => x.dinnerGroupId == att.dinnerGroupId) :=
            Nat.pos_of_ne_zero hcnt
          rcases List.countP_pos_iff.mp hpos with ⟨x, hx, hxg⟩
          refine ⟨x, hx, ?_⟩
          have : x.dinnerGroupId = att.dinnerGroupId := by simpa using hxg
          rw [this, ← haatt, haid]
        · exact ⟨a, List.mem_filter.mpr ⟨ha, by simp [hau]⟩, haid⟩

theorem stepLeave_wf {db : DB} (w : WF db) (u : String) :
    WF (stepLeave u db) := by
  rw [stepLeave_eq]
  split
  · exact w
  · exact leaveEffect_wf w u

theorem no_user_leaveEffect (u : String) (db : DB) :
    ∀ a ∈ (leaveEffect u db).attendees, a.userId ≠ u := by
  have h := findAttendee_leaveEffect u db
  unfold findAttendee at h
  rw [List.find?_eq_none] at h
  intro a ha
  simpa using h a ha

/-! ### Facts about `upsertGroup`, `createAttendee` and `joinDinnerGroup` -/

theorem upsertGroup_cases (r : String) (now : Nat) (db : DB) :
    (db.groups.find? (fun g => g.restaurantId == r)
        = some (upsertGroup r now db).1 ∧ (upsertGroup r now db).2 = db) ∨
    (db.groups.find? (fun g => g.restaurantId == r) = none ∧
      (upsertGroup r now db).1 = ⟨db.nextId, r, none, now⟩ ∧
      (upsertGroup r now db).2 =
        { db with groups := db.groups ++ [⟨db.nextId, r, none, now⟩],
                  nextId := db.nextId + 1 }) := by
  unfold upsertGroup
  split
  · rename_i g hg
    exact Or.inl ⟨hg, rfl⟩
  · rename_i hg
    exact Or.inr ⟨hg, rfl, rfl⟩

theorem upsertGroup_fst_restaurantId (r : String) (now : Nat) (db : DB) :
    (upsertGroup r now db).1.restaurantId = r := by
  unfold upsertGroup
  split
  · rename_i g hg
    simpa using List.find?_some hg
  · rfl

theorem upsertGroup_fst_mem (r : String) (now : Nat) (db : DB) :
    (upsertGroup r now db).1 ∈ (upsertGroup r now db).2.groups := by
  unfold upsertGroup
  split
  · rename_i g hg
    exact List.mem_of_find?_eq_some hg
  · simp

theorem upsertGroup_attendees (r : String) (now : Nat) (db : DB) :
    (upsertGroup r now db).2.attendees = db.attendees := by
  unfold upsertGroup
  split <;> rfl

theorem stepJoin_eq {u r : String} (hu : u ≠ "") (hr : r ≠ "")
    (now : Nat) (db : DB) :
    stepJoin u r now db =
      createAttendee u (upsertGroup r now (leaveEffect u db)).1.id now
        (upsertGroup r now (leaveEffect u db)).2 := by
  simp [stepJoin, joinDinnerGroup, hu, hr]

theorem join_wf {db : DB} (w : WF db) (u r : String) (now : Nat) :
    WF (stepJoin u r now db) := by
  by_cases hu : u = ""
  · simpa [stepJoin, joinDinnerGroup, hu] using w
  by_cases hr : r = ""
  · simpa [stepJoin, joinDinnerGroup, hu, hr] using w
  rw [stepJoin_eq hu hr]
  have w1 : WF (leaveEffect u db) := leaveEffect_wf w u
  have hno : ∀ a ∈ (leaveEffect u db).attendees, a.userId ≠ u :=
    no_user_leaveEffect u db
  set db1 := leaveEffect u db with hdb1
  rcases upsertGroup_cases r now db1 with ⟨hfind, heq⟩ | ⟨hfind, hg, heq⟩
  · -- the venue's group already exists; only an attendee row is added
    rw [heq]
    have hgmem : (upsertGroup r now db1).1 ∈ db1.groups := by
      have := upsertGroup_fst_mem r now db1
      rwa [heq] at this
    refine ⟨?_, w1.venuesU, w1.gidsU, ?_, ?_, ?_⟩
    · rw [createAttendee, List.pairwise_append]
      refine ⟨w1.usersU, by simp, ?_⟩
      intro a ha b hb
      simp only [List.mem_singleton] at hb
      subst hb
      simpa using hno a ha
    · intro a ha
      rw [createAttendee] at ha
      rcases List.mem_append.mp ha with ha' | ha'
      · exact w1.fk a ha'
      · simp only [List.mem_singleton] at ha'
        subst ha'
        exact ⟨(upsertGroup r now db1).1, hgmem, rfl⟩
    · intro g hgm
      rcases w1.inhab g hgm with ⟨a, ha, haid⟩
      exact ⟨a, List.mem_append_left _ ha, haid⟩
    · intro g hgm
      exact Nat.lt_succ_of_lt (w1.gbound g hgm)
  · -- a fresh group is created, then the attendee row referencing it
    rw [heq, hg]
    have hnew : ∀ h ∈ db1.groups, h.restaurantId ≠ r := by
      rw [List.find?_eq_none] at hfind
      intro h hm
      simpa using hfind h hm
    refine ⟨?_, ?_, ?_, ?_, ?_, ?_⟩
    · rw [createAttendee, List.pairwise_append]
      refine ⟨w1.usersU, by simp, ?_⟩
      intro a ha b hb
      simp only [List.mem_singleton] at hb
      subst hb
      simpa using hno a ha
    · simp only [createAttendee]
      rw [List.pairwise_append]
      refine ⟨w1.venuesU, by simp, ?_⟩
      intro g hgm b hb
      simp only [List.mem_singleton] at hb
      subst hb
      exact hnew g hgm
    · simp only [createAttendee]
      rw [List.pairwise_append]
      refine ⟨w1.gidsU, by simp, ?_⟩
      intro g hgm b hb
      simp only [List.mem_singleton] at hb
      subst hb
      exact Nat.ne_of_lt (w1.gbound g hgm)
    · intro a ha
      rw [createAttendee] at ha
      rcases List.mem_append.mp ha with ha' | ha'
      · rcases w1.fk a ha' with ⟨g, hgm, hgid⟩
        exact ⟨g, List.mem_append_left _ hgm, hgid⟩
      · simp only [List.mem_singleton] at ha'
        subst ha'
        exact ⟨⟨db1.nextId, r, none, now⟩, List.mem_append_right _ (by simp),
          rfl⟩
    · intro g hgm
      rcases List.mem_append.mp hgm with hgm' | hgm'
      · rcases w1.inhab g hgm' with ⟨a, ha, haid⟩
        exact ⟨a, List.mem_append_left _ ha, haid⟩
      · simp only [List.mem_singleton] at hgm'
        subst hgm'
        exact ⟨⟨db1.nextId + 1, u, db1.nextId, now⟩,
          List.mem_append_right _ (by simp), rfl⟩
    · intro g hgm
      rcases List.mem_append.mp hgm with hgm' | hgm'
      · exact Nat.lt_succ_of_lt (Nat.lt_succ_of_lt (w1.gbound g hgm'))
      · simp only [List.mem_singleton] at hgm'
        subst hgm'
        exact Nat.lt_succ_of_lt (Nat.lt_succ_self _)

theorem groups_createAttendee (u : String) (gid now : Nat) (db : DB) :
    (createAttendee u gid now db).groups = db.groups := rfl

theorem findAttendee_createAttendee (u : String) (gid now : Nat) (db : DB)
    (hno : ∀ a ∈ db.attendees, a.userId ≠ u) :
    findAttendee u (createAttendee u gid now db)
      = some ⟨db.nextId, u, gid, now⟩ := by
  simp only [findAttendee, createAttendee]
  rw [List.find?_append]
  have h1 : db.attendees.find? (fun a => a.userId == u) = none := by
    rw [List.find?_eq_none]
    intro a ha
    simp [hno a ha]
  rw [h1]
  simp

theorem find?_gid_eq {l : List DinnerGroup}
    (h : l.Pairwise (fun g g' => g.id ≠ g'.id)) {g : DinnerGroup}
    (hg : g ∈ l) : l.find? (fun x => x.id == g.id) = some g := by
  simpa using
    @find?_eq_some_of_mem_unique DinnerGroup Nat _ _ (fun x => x.id) l h g hg

theorem join_attends {db : DB} (w : WF db) {u r : String} (hu : u ≠ "")
    (hr : r ≠ "") (now : Nat) :
    getActiveVenueFor u (stepJoin u r now db) = some r ∧
    (stepJoin u r now db).attendees.countP (fun a => a.userId == u) = 1 := by
  have wj := join_wf w u r now
  rw [stepJoin_eq hu hr] at wj ⊢
  have hno : ∀ a ∈ (leaveEffect u db).attendees, a.userId ≠ u :=
    no_user_leaveEffect u db
  have hatts : (upsertGroup r now (leaveEffect u db)).2.attendees
      = (leaveEffect u db).attendees := upsertGroup_attendees r now _
  have hno2 : ∀ a ∈ (upsertGroup r now (leaveEffect u db)).2.attendees,
      a.userId ≠ u := by
    rw [hatts]
    exact hno
  constructor
  · unfold getActiveVenueFor
    rw [findAttendee_createAttendee _ _ _ _ hno2]
    show ((upsertGroup r now (leaveEffect u db)).2.groups.find?
        (fun g => g.id == (upsertGroup r now (leaveEffect u db)).1.id)).map
        (fun g => g.restaurantId) = some r
    have hpair : (upsertGroup r now (leaveEffect u db)).2.groups.Pairwise
        (fun g g' => g.id ≠ g'.id) := wj.gidsU
    rw [find?_gid_eq hpair (upsertGroup_fst_mem r now (leaveEffect u db))]
    simp [upsertGroup_fst_restaurantId]
  · show ((upsertGroup r now (leaveEffect u db)).2.attendees ++
      [(⟨(upsertGroup r now (leaveEffect u db)).2.nextId, u,
        (upsertGroup r now (leaveEffect u db)).1.id, now⟩ : Attendee)]).countP
      (fun a => a.userId == u) = 1
    rw [List.countP_append, hatts]
    have h0 : (leaveEffect u db).attendees.countP (fun a => a.userId == u)
        = 0 := by
      rw [List.countP_eq_zero]
      intro a ha
      simp [hno a ha]
    simp [h0, List.countP_cons]

/-! ### The invariants hold in every reachable state -/

theorem wf_dbEmpty : WF dbEmpty := by
  refine ⟨?_, ?_, ?_, ?_, ?_, ?_⟩ <;> simp [dbEmpty]

theorem foldl_wf {db : DB} (w : WF db) (ops : List Op) :
    WF (ops.foldl applyOp db) := by
  induction ops generalizing db with
  | nil => exact w
  | cons op t ih =>
    apply ih
    cases op with
    | join u r now => exact join_wf w u r now
    | leave u => exact stepLeave_wf w u

theorem runOps_wf (ops : List Op) : WF (runOps ops) :=
  foldl_wf wf_dbEmpty ops

/-- C1: after every finite sequence of completed join/leave operations
(starting from the empty store), every person has at most one `Attendee`
row — the global single-group-membership invariant, at every observation
point between completed operations. -/
theorem c1_single_membership (ops : List Op) (u : String) :
    (runOps ops).attendees.countP (fun a => a.userId == u) ≤ 1 :=
  countP_le_one_of_pairwise_ne (fun a : Attendee => a.userId) u
    (runOps_wf ops).usersU

/-- C3: after every finite sequence of completed join/leave operations, a
`DinnerGroup` row bound to venue `r` exists iff some `Attendee` row
references a group bound to `r`; in particular no empty group persists
once its last attendee has left. -/
theorem c3_group_iff_attendee (ops : List Op) (r : String) :
    (∃ g ∈ (runOps ops).groups, g.restaurantId = r) ↔
    (∃ a ∈ (runOps ops).attendees, ∃ g ∈ (runOps ops).groups,
      g.id = a.dinnerGroupId ∧ g.restaurantId = r) := by
  constructor
  · rintro ⟨g, hg, hrid⟩
    rcases (runOps_wf ops).inhab g hg with ⟨a, ha, haid⟩
    exact ⟨a, ha, g, hg, haid.symm, hrid⟩
  · rintro ⟨a, _, g, hg, _, hrid⟩
    exact ⟨g, hg, hrid⟩

/-- C7: joining the same venue twice in a row leaves the person attending
exactly that venue with exactly one `Attendee` row, and the second call
does not error. -/
theorem c7_join_same_venue_twice {db : DB} (w : WF db) (u r : String)
    (hu : u ≠ "") (hr : r ≠ "") (now1 now2 : Nat) :
    getActiveVenueFor u (stepJoin u r now2 (stepJoin u r now1 db)) = some r ∧
    (stepJoin u r now2 (stepJoin u r now1 db)).attendees.countP
      (fun a => a.userId == u) = 1 ∧
    ∃ g db2, joinDinnerGroup u r now2 (stepJoin u r now1 db)
      = Except.ok (g, db2) := by
  have w1 := join_wf w u r now1
  have h := join_attends w1 hu hr now2
  refine ⟨h.1, h.2, ?_⟩
  simp [joinDinnerGroup, hu, hr]

/-- Witness for C7 at a concrete input. -/
theorem c7_join_same_venue_twice_witness :
    getActiveVenueFor "p" (stepJoin "p" "v" 1 (stepJoin "p" "v" 0 dbEmpty))
      = some "v" ∧
    (stepJoin "p" "v" 1 (stepJoin "p" "v" 0 dbEmpty)).attendees.countP
      (fun a => a.userId == "p") = 1 ∧
    ∃ g db2, joinDinnerGroup "p" "v" 1 (stepJoin "p" "v" 0 dbEmpty)
      = Except.ok (g, db2) :=
  c7_join_same_venue_twice wf_dbEmpty "p" "v" (by decide) (by decide) 0 1

/-! ### The observation points of a venue switch -/

theorem leaveTrace_attendees (u : String) (db : DB) :
    ∀ s ∈ leaveTrace u db,
      s.attendees = db.attendees ∨
      s.attendees = (deleteAttendee u db).attendees := by
  unfold leaveTrace
  split
  · intro s hs
    simp at hs
    rw [hs]
    exact Or.inl rfl
  · intro s hs
    split at hs <;> simp at hs
    · rcases hs with rfl | rfl | rfl
      · exact Or.inl rfl
      · exact Or.inr rfl
      · exact Or.inr (attendees_deleteGroup _ _)
    · rcases hs with rfl | rfl
      · exact Or.inl rfl
      · exact Or.inr rfl

theorem joinTrace_attendees {u r : String} {now : Nat} {db : DB}
    (hu : u ≠ "") (hr : r ≠ "") :
    ∀ s ∈ joinTrace u r now db,
      s.attendees = db.attendees ∨
      s.attendees = (deleteAttendee u db).attendees ∨
      s.attendees = (stepJoin u r now db).attendees := by
  have hval : ¬(u = "" ∨ r = "") := by simp [hu, hr]
  unfold joinTrace
  rw [if_neg hval]
  intro s hs
  rcases List.mem_append.mp hs with h | h
  · rcases leaveTrace_attendees u db s h with h' | h'
    · exact Or.inl h'
    · exact Or.inr (Or.inl h')
  · simp at h
    rcases h with rfl | rfl
    · rw [upsertGroup_attendees]
      rcases leaveEffect_attendees u db with h' | h'
      · exact Or.inl h'
      · exact Or.inr (Or.inl h')
    · right; right
      rw [stepJoin_eq hu hr]

theorem joinTrace_getLast {u r : String} (hu : u ≠ "") (hr : r ≠ "")
    (now : Nat) (db : DB) :
    (joinTrace u r now db).getLast? = some (stepJoin u r now db) := by
  have hval : ¬(u = "" ∨ r = "") := by simp [hu, hr]
  unfold joinTrace
  rw [if_neg hval, stepJoin_eq hu hr]
  rw [show ∀ (l : List DB) (x y : DB), l ++ [x, y] = (l ++ [x]) ++ [y] from
    fun l x y => by simp]
  exact List.getLast?_concat _

/-- C2 amended: a venue switch is not atomic (see the counterexample), but
the following does hold at every observation point of `joinDinnerGroup`:
the person never appears in two groups at once (at most one `Attendee`
row throughout the trace), the last observation point is the completed
operation's state, and once the call completes the person attends exactly
the requested venue. -/
theorem c2_switch_single_membership_amended {db : DB} (w : WF db)
    (u r : String) (now : Nat) :
    (∀ s ∈ joinTrace u r now db,
      s.attendees.countP (fun a => a.userId == u) ≤ 1) ∧
    (joinTrace u r now db).getLast? = some (stepJoin u r now db) ∧
    (u ≠ "" → r ≠ "" →
      getActiveVenueFor u (stepJoin u r now db) = some r ∧
      (stepJoin u r now db).attendees.countP (fun a => a.userId == u) = 1) := by
  have hdb : db.attendees.countP (fun a => a.userId == u) ≤ 1 :=
    countP_le_one_of_pairwise_ne (fun a : Attendee => a.userId) u w.usersU
  by_cases hu : u = ""
  · refine ⟨?_, ?_, fun h _ => absurd hu h⟩
    · intro s hs
      simp [joinTrace, hu] at hs
      rw [hs]
      exact hdb
    · simp [joinTrace, stepJoin, joinDinnerGroup, hu]
  by_cases hr : r = ""
  · refine ⟨?_, ?_, fun _ h => absurd hr h⟩
    · intro s hs
      simp [joinTrace, hr] at hs
      rw [hs]
      exact hdb
    · simp [joinTrace, stepJoin, joinDinnerGroup, hu, hr]
  · refine ⟨?_, joinTrace_getLast hu hr now db,
      fun _ _ => join_attends w hu hr now⟩
    intro s hs
    rcases joinTrace_attendees hu hr s hs with h | h | h
    · rw [h]
      exact hdb
    · rw [h]
      exact le_trans (List.Sublist.countP_le _ (List.filter_sublist _)) hdb
    · rw [h, (join_attends w hu hr now).2]

/-- Witness for the amended C2 at a concrete input. -/
theorem c2_switch_single_membership_amended_witness :
    (∀ s ∈ joinTrace "p" "v" 0 dbEmpty,
      s.attendees.countP (fun a => a.userId == "p") ≤ 1) ∧
    getActiveVenueFor "p" (stepJoin "p" "v" 0 dbEmpty) = some "v" :=
  ⟨(c2_switch_single_membership_amended wf_dbEmpty "p" "v" 0).1,
   ((c2_switch_single_membership_amended wf_dbEmpty "p" "v" 0).2.2
     (by decide) (by decide)).1⟩

/-! ### Switching venues -/

theorem leaveEffect_of_some {u : String} {db : DB} {att : Attendee}
    (hM : findAttendee u db = some att) :
    leaveEffect u db =
      if countInGroup att.dinnerGroupId (deleteAttendee u db) = 0 then
        deleteGroup att.dinnerGroupId (deleteAttendee u db)
      else deleteAttendee u db := by
  unfold leaveEffect
  rw [hM]

theorem join_fresh_group {db : DB} {u r : String} (hu : u ≠ "") (hr : r ≠ "")
    (now : Nat) (hM : findAttendee u db = none)
    (hG : db.groups.find? (fun g => g.restaurantId == r) = none) :
    stepJoin u r now db =
      ⟨db.groups ++ [⟨db.nextId, r, none, now⟩],
       db.attendees ++ [⟨db.nextId + 1, u, db.nextId, now⟩],
       db.nextId + 2⟩ := by
  rw [stepJoin_eq hu hr, leaveEffect_of_none hM]
  unfold upsertGroup
  rw [hG]
  rfl

/-- C4: from a state where person `p` is unattached, `join(p, v1)` then
`join(p, v2)` with `v1 ≠ v2` leaves `p` attending `v2` only, with exactly
one `Attendee` row; and if `p` was the sole attendee of `v1`'s group
(equivalently, by the no-empty-group invariant: no group for `v1` existed
beforehand), no group bound to `v1` remains. -/
theorem c4_switch_venue {db : DB} (w : WF db) {p v1 v2 : String}
    (hp : p ≠ "") (h1 : v1 ≠ "") (h2 : v2 ≠ "") (hne : v1 ≠ v2)
    (hM : findAttendee p db = none) (now1 now2 : Nat) :
    getActiveVenueFor p (stepJoin p v2 now2 (stepJoin p v1 now1 db))
      = some v2 ∧
    (stepJoin p v2 now2 (stepJoin p v1 now1 db)).attendees.countP
      (fun a => a.userId == p) = 1 ∧
    (db.groups.find? (fun g => g.restaurantId == v1) = none →
      ∀ g ∈ (stepJoin p v2 now2 (stepJoin p v1 now1 db)).groups,
        g.restaurantId ≠ v1) := by
  have w1 := join_wf w p v1 now1
  refine ⟨(join_attends w1 hp h2 now2).1, (join_attends w1 hp h2 now2).2, ?_⟩
  intro hG
  have hGall : ∀ g ∈ db.groups, g.restaurantId ≠ v1 := by
    rw [List.find?_eq_none] at hG
    intro g hg
    simpa using hG g hg
  have hall : ∀ a ∈ db.attendees, a.userId ≠ p := by
    unfold findAttendee at hM
    rw [List.find?_eq_none] at hM
    intro a ha
    simpa using hM a ha
  have hdb1 := join_fresh_group hp h1 now1 hM hG
  -- the caller's attendee row in the intermediate state
  have hfa1 : findAttendee p (stepJoin p v1 now1 db)
      = some ⟨db.nextId + 1, p, db.nextId, now1⟩ := by
    rw [hdb1]
    show (db.attendees ++
      [(⟨db.nextId + 1, p, db.nextId, now1⟩ : Attendee)]).find?
      (fun a => a.userId == p) = some ⟨db.nextId + 1, p, db.nextId, now1⟩
    rw [List.find?_append]
    have h0 : db.attendees.find? (fun a => a.userId == p) = none := by
      rw [List.find?_eq_none]
      intro a ha
      simp [hall a ha]
    rw [h0]
    simp
  have hfilter : db.attendees.filter (fun a => !(a.userId == p))
      = db.attendees := by
    rw [List.filter_eq_self]
    intro a ha
    simp [hall a ha]
  have hgfilter : db.groups.filter (fun g => !(g.id == db.nextId))
      = db.groups := by
    rw [List.filter_eq_self]
    intro g hg
    simp [Nat.ne_of_lt (w.gbound g hg)]
  have hcount : db.attendees.countP (fun a => a.dinnerGroupId == db.nextId)
      = 0 := by
    rw [List.countP_eq_zero]
    intro a ha
    rcases w.fk a ha with ⟨g, hg, hgid⟩
    rw [← hgid]
    simp [Nat.ne_of_lt (w.gbound g hg)]
  have hdel : deleteAttendee p (stepJoin p v1 now1 db)
      = ⟨db.groups ++ [⟨db.nextId, v1, none, now1⟩], db.attendees,
         db.nextId + 2⟩ := by
    rw [hdb1]
    simp [deleteAttendee, List.filter_append, hfilter]
  have hle : leaveEffect p (stepJoin p v1 now1 db)
      = ⟨db.groups, db.attendees, db.nextId + 2⟩ := by
    rw [leaveEffect_of_some hfa1, hdel]
    have hc0 : countInGroup
        (⟨db.nextId + 1, p, db.nextId, now1⟩ : Attendee).dinnerGroupId
        (⟨db.groups ++ [⟨db.nextId, v1, none, now1⟩], db.attendees,
          db.nextId + 2⟩ : DB) = 0 := by
      simpa [countInGroup] using hcount
    rw [if_pos hc0]
    simp [deleteGroup, List.filter_append, hgfilter]
  rw [stepJoin_eq hp h2, groups_createAttendee, hle]
  rcases upsertGroup_cases v2 now2
      (⟨db.groups, db.attendees, db.nextId + 2⟩ : DB) with ⟨_, he⟩ |
      ⟨_, _, he⟩ <;> rw [he]
  · exact hGall
  · intro g hg
    rcases List.mem_append.mp hg with h | h
    · exact hGall g h
    · simp at h
      rw [h]
      exact fun hc => hne hc.symm

/-- Witness for C4 at a concrete input. -/
theorem c4_switch_venue_witness :
    getActiveVenueFor "p" (stepJoin "p" "b" 1 (stepJoin "p" "a" 0 dbEmpty))
      = some "b" ∧
    (stepJoin "p" "b" 1 (stepJoin "p" "a" 0 dbEmpty)).attendees.countP
      (fun a => a.userId == "p") = 1 ∧
    ∀ g ∈ (stepJoin "p" "b" 1 (stepJoin "p" "a" 0 dbEmpty)).groups,
      g.restaurantId ≠ "a" := by
  have h := @c4_switch_venue dbEmpty wf_dbEmpty "p" "a" "b"
    (by decide) (by decide) (by decide) (by decide) rfl 0 1
  exact ⟨h.1, h.2.1, h.2.2 rfl⟩

/-! ### Re-joining as the sole attendee -/

theorem eq_of_countP_eq_one {α : Type} {p : α → Bool} {l : List α}
    (h : l.countP p = 1) {a : α} (ha : a ∈ l) (hpa : p a) :
    ∀ b ∈ l, p b → b = a := by
  induction l with
  | nil => cases ha
  | cons c t ih =>
    rw [List.countP_cons] at h
    by_cases hc : p c
    · have ht : t.countP p = 0 := by
        rw [if_pos hc] at h
        omega
      have hzero := List.countP_eq_zero.mp ht
      intro b hb hpb
      rcases List.mem_cons.mp hb with rfl | hb'
      · rcases List.mem_cons.mp ha with rfl | ha'
        · rfl
        · exact absurd hpa (hzero a ha')
      · exact absurd hpb (hzero b hb')
    · rcases List.mem_cons.mp ha with rfl | ha'
      · exact absurd hpa hc
      · have ht : t.countP p = 1 := by
          rw [if_neg hc] at h
          omega
        intro b hb hpb
        rcases List.mem_cons.mp hb with rfl | hb'
        · exact absurd hpb hc
        · exact ih ht ha' b hb' hpb

/-- C10: when person `u` is the sole attendee of venue `r`'s group `g`,
`joinDinnerGroup u r` deletes `g` (the embedded leave empties it) and
creates a fresh group for `r`: the returned group has a new id, no notes,
and the current timestamp, and `g` is gone from the store — so the prior
group's identity, free-text note and creation timestamp are not
preserved across a same-venue re-join by its sole attendee. -/
theorem c10_rejoin_fresh_group {db : DB} (w : WF db) {u r : String}
    (hu : u ≠ "") (hr : r ≠ "") {att : Attendee} {g : DinnerGroup}
    (hM : findAttendee u db = some att)
    (hG : db.groups.find? (fun x => x.restaurantId == r) = some g)
    (hgid : att.dinnerGroupId = g.id)
    (hsole : countInGroup g.id db = 1) (now : Nat) :
    ∃ g' db', joinDinnerGroup u r now db = Except.ok (g', db') ∧
      g'.id ≠ g.id ∧ g'.notes = none ∧ g'.createdAt = now ∧
      g ∉ db'.groups := by
  have hgmem : g ∈ db.groups := List.mem_of_find?_eq_some hG
  have hgrid : g.restaurantId = r := by simpa using List.find?_some hG
  have hattmem := (findAttendee_mem hM).1
  have hattuid := (findAttendee_mem hM).2
  have hattp : (att.dinnerGroupId == g.id) = true := by simp [hgid]
  have hsole' : db.attendees.countP
      (fun a => a.dinnerGroupId == g.id) = 1 := hsole
  have huniq := eq_of_countP_eq_one hsole' hattmem hattp
  have hcount0 : countInGroup att.dinnerGroupId (deleteAttendee u db) = 0 := by
    show (db.attendees.filter (fun a => !(a.userId == u))).countP
      (fun a => a.dinnerGroupId == att.dinnerGroupId) = 0
    rw [List.countP_filter, List.countP_eq_zero]
    intro x hx
    simp only [Bool.and_eq_true, beq_iff_eq, Bool.not_eq_true',
      beq_eq_false_iff_ne, ne_eq, not_and]
    intro hxg hxu
    have hx' : x = att := huniq x hx (by simp [hxg, hgid])
    exact hxu (hx' ▸ hattuid)
  have hle : leaveEffect u db
      = deleteGroup att.dinnerGroupId (deleteAttendee u db) := by
    rw [leaveEffect_of_some hM, if_pos hcount0]
  have hlegroups : (leaveEffect u db).groups
      = db.groups.filter (fun x => !(x.id == g.id)) := by
    rw [hle, hgid]
    rfl
  have hnext : (leaveEffect u db).nextId = db.nextId := nextId_leaveEffect u db
  have hfind2 : (leaveEffect u db).groups.find?
      (fun x => x.restaurantId == r) = none := by
    rw [hlegroups, List.find?_eq_none]
    intro x hx
    rcases List.mem_filter.mp hx with ⟨hxm, hxne⟩
    simp only [beq_iff_eq]
    intro hxr
    have hxg : x = g :=
      eq_of_pairwise_key w.venuesU hxm hgmem (hxr.trans hgrid.symm)
    rw [hxg] at hxne
    simp at hxne
  rcases upsertGroup_cases r now (leaveEffect u db) with ⟨hf, _⟩ |
      ⟨_, hg1, he⟩
  · rw [hfind2] at hf
    cases hf
  · have hjoin : joinDinnerGroup u r now db = Except.ok
        ((upsertGroup r now (leaveEffect u db)).1,
         createAttendee u (upsertGroup r now (leaveEffect u db)).1.id now
           (upsertGroup r now (leaveEffect u db)).2) := by
      simp [joinDinnerGroup, hu, hr]
    refine ⟨_, _, hjoin, ?_, ?_, ?_, ?_⟩
    · rw [hg1]
      show (leaveEffect u db).nextId ≠ g.id
      rw [hnext]
      exact (Nat.ne_of_lt (w.gbound g hgmem)).symm
    · rw [hg1]
    · rw [hg1]
    · rw [groups_createAttendee, he]
      show g ∉ (leaveEffect u db).groups ++
        [(⟨(leaveEffect u db).nextId, r, none, now⟩ : DinnerGroup)]
      intro hmem
      rcases List.mem_append.mp hmem with h | h
      · rw [hlegroups] at h
        rcases List.mem_filter.mp h with ⟨_, hne2⟩
        simp at hne2
      · simp at h
        have : g.id = (leaveEffect u db).nextId := by rw [h]
        rw [hnext] at this
        exact Nat.ne_of_lt (w.gbound g hgmem) this

/-- Witness for C10 at a concrete input. -/
theorem c10_rejoin_fresh_group_witness :
    ∃ g' db', joinDinnerGroup "p" "v" 9
        (⟨[⟨0, "v", none, 0⟩], [⟨1, "p", 0, 0⟩], 2⟩ : DB)
      = Except.ok (g', db') ∧
      g'.id ≠ (⟨0, "v", none, 0⟩ : DinnerGroup).id ∧ g'.notes = none ∧
      g'.createdAt = 9 ∧
      (⟨0, "v", none, 0⟩ : DinnerGroup) ∉ db'.groups :=
  @c10_rejoin_fresh_group ⟨[⟨0, "v", none, 0⟩], [⟨1, "p", 0, 0⟩], 2⟩
    ⟨by decide, by decide, by decide, by decide, by decide, by decide⟩
    "p" "v" (by decide) (by decide) ⟨1, "p", 0, 0⟩ ⟨0, "v", none, 0⟩
    rfl rfl rfl rfl 9

/-! ### Cache freshness -/

theorem cachifiedGet_hit {α : Type} {key : String} {ttl now : Nat}
    {fresh : Unit → α} {s : CacheSys α} {e : CacheEntry α}
    (hfind : s.entries.find? (fun x => x.key == key) = some e)
    (hfresh : now - e.storedAt < ttl) :
    cachifiedGet key ttl now fresh s = (e.value, s) := by
  unfold cachifiedGet
  rw [hfind]
  exact if_pos hfresh

theorem cachifiedGet_miss {α : Type} {key : String} {ttl now : Nat}
    {fresh : Unit → α} {s : CacheSys α}
    (hfind : s.entries.find? (fun x => x.key == key) = none) :
    cachifiedGet key ttl now fresh s =
      (fresh (),
       ⟨⟨key, now, fresh ()⟩ :: s.entries.filter (fun x => !(x.key == key)),
        s.adapterCalls + 1⟩) := by
  unfold cachifiedGet
  rw [hfind]

theorem cachifiedGet_stale {α : Type} {key : String} {ttl now : Nat}
    {fresh : Unit → α} {s : CacheSys α} {e : CacheEntry α}
    (hfind : s.entries.find? (fun x => x.key == key) = some e)
    (hstale : ¬(now - e.storedAt < ttl)) :
    cachifiedGet key ttl now fresh s =
      (fresh (),
       ⟨⟨key, now, fresh ()⟩ :: s.entries.filter (fun x => !(x.key == key)),
        s.adapterCalls + 1⟩) := by
  unfold cachifiedGet
  rw [hfind]
  exact if_neg hstale

/-- C5: starting from a cache with no entry for the (lat, lng, radius)
key, a first `getVenues` call invokes the adapter once; a second call with
the identical triple while the entry's age is within `RESTAURANTS_TTL`
returns the cached list and leaves cache and call-count untouched (the
adapter is invoked at most once across the two calls); a call issued after
the window has expired invokes the adapter again. -/
theorem c5_cache_freshness {α : Type} (adapter : Int → Int → Int → α)
    (lat lng radius : Int) (now1 now2 now3 : Nat) (s0 : CacheSys α)
    (hmiss : s0.entries.find? (fun e => e.key == cacheKey lat lng radius)
      = none)
    (_h12 : now1 ≤ now2) (hfresh : now2 - now1 < RESTAURANTS_TTL)
    (hstale : RESTAURANTS_TTL ≤ now3 - now1) :
    (getVenues adapter lat lng radius now1 s0).2.adapterCalls
        = s0.adapterCalls + 1 ∧
    (getVenues adapter lat lng radius now2
        (getVenues adapter lat lng radius now1 s0).2).1
      = (getVenues adapter lat lng radius now1 s0).1 ∧
    (getVenues adapter lat lng radius now2
        (getVenues adapter lat lng radius now1 s0).2).2
      = (getVenues adapter lat lng radius now1 s0).2 ∧
    (getVenues adapter lat lng radius now3
        (getVenues adapter lat lng radius now1 s0).2).2.adapterCalls
      = (getVenues adapter lat lng radius now1 s0).2.adapterCalls + 1 := by
  have h1 : getVenues adapter lat lng radius now1 s0
      = (adapter lat lng radius,
         ⟨⟨cacheKey lat lng radius, now1, adapter lat lng radius⟩ ::
            s0.entries.filter
              (fun e => !(e.key == cacheKey lat lng radius)),
          s0.adapterCalls + 1⟩) := by
    unfold getVenues
    exact cachifiedGet_miss hmiss
  have hfind1 : (getVenues adapter lat lng radius now1 s0).2.entries.find?
      (fun e => e.key == cacheKey lat lng radius)
      = some ⟨cacheKey lat lng radius, now1, adapter lat lng radius⟩ := by
    rw [h1]
    exact List.find?_cons_of_pos _ (by simp)
  have h2 : getVenues adapter lat lng radius now2
      (getVenues adapter lat lng radius now1 s0).2
      = ((⟨cacheKey lat lng radius, now1,
            adapter lat lng radius⟩ : CacheEntry α).value,
         (getVenues adapter lat lng radius now1 s0).2) := by
    unfold getVenues
    exact cachifiedGet_hit hfind1 hfresh
  have h3 := @cachifiedGet_stale α (cacheKey lat lng radius) RESTAURANTS_TTL
    now3 (fun _ => adapter lat lng radius) _ _ hfind1
    (by show ¬(now3 - now1 < RESTAURANTS_TTL); omega)
  refine ⟨by rw [h1], ?_, by rw [h2], ?_⟩
  · rw [h2, h1]
  · show (cachifiedGet (cacheKey lat lng radius) RESTAURANTS_TTL now3
      (fun _ => adapter lat lng radius)
      (getVenues adapter lat lng radius now1 s0).2).2.adapterCalls
      = (getVenues adapter lat lng radius now1 s0).2.adapterCalls + 1
    rw [h3]

/-- Witness for C5 at a concrete input. -/
theorem c5_cache_freshness_witness :
    (getVenues (fun _ _ _ => (7 : Nat)) 1 2 3 0 (⟨[], 0⟩ : CacheSys Nat)).2.adapterCalls
        = 0 + 1 ∧
    (getVenues (fun _ _ _ => (7 : Nat)) 1 2 3 1
        (getVenues (fun _ _ _ => (7 : Nat)) 1 2 3 0 ⟨[], 0⟩).2).1
      = (getVenues (fun _ _ _ => (7 : Nat)) 1 2 3 0 ⟨[], 0⟩).1 ∧
    (getVenues (fun _ _ _ => (7 : Nat)) 1 2 3 1
        (getVenues (fun _ _ _ => (7 : Nat)) 1 2 3 0 ⟨[], 0⟩).2).2
      = (getVenues (fun _ _ _ => (7 : Nat)) 1 2 3 0 ⟨[], 0⟩).2 ∧
    (getVenues (fun _ _ _ => (7 : Nat)) 1 2 3 RESTAURANTS_TTL
        (getVenues (fun _ _ _ => (7 : Nat)) 1 2 3 0 ⟨[], 0⟩).2).2.adapterCalls
      = (getVenues (fun _ _ _ => (7 : Nat)) 1 2 3 0 ⟨[], 0⟩).2.adapterCalls
        + 1 :=
  c5_cache_freshness (fun _ _ _ => (7 : Nat)) 1 2 3 0 1 RESTAURANTS_TTL
    ⟨[], 0⟩ rfl (by decide) (by decide) (by decide)

/-! ### The haversine distance -/

theorem calculateDistance_self (x y : ℝ) : calculateDistance x y x y = 0 := by
  unfold calculateDistance
  have e1 : (x - x) * Real.pi / 180 / 2 = 0 := by ring
  have e2 : (y - y) * Real.pi / 180 / 2 = 0 := by ring
  rw [e1, e2, Real.sin_zero]
  have e3 : (0:ℝ) * 0 +
      Real.cos (x * Real.pi / 180) * Real.cos (x * Real.pi / 180) * (0 * 0)
      = 0 := by ring
  rw [e3, Real.sqrt_zero]
  have e4 : (1:ℝ) - 0 = 1 := by norm_num
  rw [e4, Real.sqrt_one]
  unfold atan2
  rw [if_pos (by norm_num : (0:ℝ) < 1), zero_div, Real.arctan_zero]
  unfold round1
  norm_num

theorem calculateDistance_equator_one_degree :
    calculateDistance 0 0 0 1 = 691 / 10 := by
  have hpi := Real.pi_pos
  have hθlt : Real.pi / 360 < Real.pi / 2 := by linarith
  have hθnn : (0:ℝ) ≤ Real.pi / 360 := by positivity
  have hsin_nn : 0 ≤ Real.sin (Real.pi / 360) :=
    Real.sin_nonneg_of_nonneg_of_le_pi hθnn (by linarith)
  have hcos_pos : 0 < Real.cos (Real.pi / 360) :=
    Real.cos_pos_of_mem_Ioo ⟨by linarith, hθlt⟩
  unfold calculateDistance
  have e1 : ((0:ℝ) - 0) * Real.pi / 180 / 2 = 0 := by ring
  have e2 : ((1:ℝ) - 0) * Real.pi / 180 / 2 = Real.pi / 360 := by ring
  have e3 : (0:ℝ) * Real.pi / 180 = 0 := by ring
  rw [e1, e2, e3, Real.sin_zero, Real.cos_zero]
  have e4 : (0:ℝ) * 0 +
      1 * 1 * (Real.sin (Real.pi / 360) * Real.sin (Real.pi / 360))
      = Real.sin (Real.pi / 360) * Real.sin (Real.pi / 360) := by ring
  rw [e4, Real.sqrt_mul_self hsin_nn]
  have e5 : 1 - Real.sin (Real.pi / 360) * Real.sin (Real.pi / 360)
      = Real.cos (Real.pi / 360) * Real.cos (Real.pi / 360) := by
    have h := Real.sin_sq_add_cos_sq (Real.pi / 360)
    nlinarith [h]
  rw [e5, Real.sqrt_mul_self hcos_pos.le]
  unfold atan2
  rw [if_pos hcos_pos, ← Real.tan_eq_sin_div_cos,
    Real.arctan_tan (by linarith) hθlt]
  unfold round1
  have e6 : (10:ℝ) * (3958.8 * (2 * (Real.pi / 360)))
      = 3299 / 15 * Real.pi := by ring
  rw [e6]
  have hround : round (3299 / 15 * Real.pi) = 691 := by
    have hlow := Real.pi_gt_d6
    have hhigh := Real.pi_lt_d6
    rw [round_eq, Int.floor_eq_iff]
    constructor
    · push_cast
      nlinarith
    · push_cast
      nlinarith
  rw [hround]
  norm_num

/-- C9 counterexample: the spec's figure is wrong for the code's earth
radius constant.  With R = 3958.8 the haversine distance from (0,0) to
(0,1°) is 3958.8·π/180 ≈ 69.094, which rounds to 69.1 — not ≈ 69.17
(69.17 cannot be the result of one-decimal rounding at all, and the
unrounded value does not approximate it either). -/
theorem c9_distance_value_counterexample :
    calculateDistance 0 0 0 1 ≠ 69.17 := by
  rw [calculateDistance_equator_one_degree]
  norm_num

/-- C9 amended: the per-venue distance is the haversine great-circle
distance in miles with earth radius 3958.8 rounded to one decimal place;
haversine(0,0 → 0,1°) = 69.1 miles after rounding, and
haversine(x,y → x,y) = 0 for every point. -/
theorem c9_haversine_amended :
    calculateDistance 0 0 0 1 = 69.1 ∧
    ∀ x y : ℝ, calculateDistance x y x y = 0 := by
  constructor
  · rw [calculateDistance_equator_one_degree]
    norm_num
  · exact calculateDistance_self

end Dinner
